import Mathlib

/-!
Shallow embedding of the BESS revenue aggregation engine of the
power_markets_pipeline repository, centred on the per-year revenue
computation of calculate_bess_complete_revenues_corrected.py
(process_year), the price index it builds from the settlement price
table, the finalization of ledger entries into result rows, and the
per-row ancillary-service contribution of final_bess_revenue_analysis.py.

Monetary and megawatt quantities are modelled as exact rationals.
A numeric CSV field is an Option value: none stands for a missing
column or a value that pandas to_numeric with coercion turns into NaN;
getD 0 models fillna(0).
-/

namespace BessRevenue

/-- One row of a DAM Gen Resource Data disclosure file, with the columns
process_year reads: resource name and type, the (Delivery Date, Hour Ending)
key, the energy award and settlement price, the five per-product MCPC
columns (carried on every row of an hour) and the per-product award
columns. A numeric field is none when the column is absent or the raw
value fails to parse. -/
structure DamRow where
  resourceName : String
  resourceType : String
  deliveryDate : String
  hourEnding : Nat
  awardedQuantity : Option ℚ
  energySettlementPointPrice : Option ℚ
  regUpMCPC : Option ℚ
  regDownMCPC : Option ℚ
  rrsMCPC : Option ℚ
  ecrsMCPC : Option ℚ
  nonSpinMCPC : Option ℚ
  regUpAwarded : Option ℚ
  regDownAwarded : Option ℚ
  rrspfrAwarded : Option ℚ
  rrsffrAwarded : Option ℚ
  rrsufrAwarded : Option ℚ
  ecrssdAwarded : Option ℚ
  nonSpinAwarded : Option ℚ
  deriving DecidableEq

/-- One row of a SCED Gen Resource Data file as the RT dispatch loop reads
it: resource name and type and the Base Point dispatch instruction. The
raw rows also carry a SCED timestamp column, kept here as an interval
index; the pricing code of process_year never reads it. -/
structure ScedRow where
  resourceName : String
  resourceType : String
  interval : Nat
  basePoint : Option ℚ
  deriving DecidableEq

/-- One row of the settlement point price table
(Settlement_Point_Prices_at_Resource_Nodes parquet): settlement point
name, the interval the quote is for, and the price. process_year reads
only the name and the price. -/
structure PriceRow where
  settlementPointName : String
  interval : Nat
  settlementPointPrice : ℚ
  deriving DecidableEq

/-- The per-resource accumulator dictionary initialized at the top of
process_year: revenue components, counters and gross charge and
discharge energy. -/
@[ext]
structure Ledger where
  dam_energy : ℚ
  rt_energy_arbitrage : ℚ
  reg_up : ℚ
  reg_down : ℚ
  rrs : ℚ
  ecrs : ℚ
  non_spin : ℚ
  dam_hours : ℕ
  rt_intervals : ℕ
  total_discharge_mwh : ℚ
  total_charge_mwh : ℚ
  deriving DecidableEq

instance : Zero Ledger := ⟨⟨0, 0, 0, 0, 0, 0, 0, 0, 0, 0, 0⟩⟩

instance : Add Ledger :=
  ⟨fun a b =>
    ⟨a.dam_energy + b.dam_energy, a.rt_energy_arbitrage + b.rt_energy_arbitrage,
     a.reg_up + b.reg_up, a.reg_down + b.reg_down, a.rrs + b.rrs, a.ecrs + b.ecrs,
     a.non_spin + b.non_spin, a.dam_hours + b.dam_hours, a.rt_intervals + b.rt_intervals,
     a.total_discharge_mwh + b.total_discharge_mwh, a.total_charge_mwh + b.total_charge_mwh⟩⟩

@[simp] theorem Ledger.add_dam_energy (a b : Ledger) :
    (a + b).dam_energy = a.dam_energy + b.dam_energy := rfl

@[simp] theorem Ledger.add_rt_energy_arbitrage (a b : Ledger) :
    (a + b).rt_energy_arbitrage = a.rt_energy_arbitrage + b.rt_energy_arbitrage := rfl

@[simp] theorem Ledger.add_reg_up (a b : Ledger) :
    (a + b).reg_up = a.reg_up + b.reg_up := rfl

@[simp] theorem Ledger.add_reg_down (a b : Ledger) :
    (a + b).reg_down = a.reg_down + b.reg_down := rfl

@[simp] theorem Ledger.add_rrs (a b : Ledger) : (a + b).rrs = a.rrs + b.rrs := rfl

@[simp] theorem Ledger.add_ecrs (a b : Ledger) : (a + b).ecrs = a.ecrs + b.ecrs := rfl

@[simp] theorem Ledger.add_non_spin (a b : Ledger) :
    (a + b).non_spin = a.non_spin + b.non_spin := rfl

@[simp] theorem Ledger.add_dam_hours (a b : Ledger) :
    (a + b).dam_hours = a.dam_hours + b.dam_hours := rfl

@[simp] theorem Ledger.add_rt_intervals (a b : Ledger) :
    (a + b).rt_intervals = a.rt_intervals + b.rt_intervals := rfl

@[simp] theorem Ledger.add_total_discharge_mwh (a b : Ledger) :
    (a + b).total_discharge_mwh = a.total_discharge_mwh + b.total_discharge_mwh := rfl

@[simp] theorem Ledger.add_total_charge_mwh (a b : Ledger) :
    (a + b).total_charge_mwh = a.total_charge_mwh + b.total_charge_mwh := rfl

@[simp] theorem Ledger.zero_dam_energy : (0 : Ledger).dam_energy = 0 := rfl

@[simp] theorem Ledger.zero_rt_energy_arbitrage : (0 : Ledger).rt_energy_arbitrage = 0 := rfl

@[simp] theorem Ledger.zero_reg_up : (0 : Ledger).reg_up = 0 := rfl

@[simp] theorem Ledger.zero_reg_down : (0 : Ledger).reg_down = 0 := rfl

@[simp] theorem Ledger.zero_rrs : (0 : Ledger).rrs = 0 := rfl

@[simp] theorem Ledger.zero_ecrs : (0 : Ledger).ecrs = 0 := rfl

@[simp] theorem Ledger.zero_non_spin : (0 : Ledger).non_spin = 0 := rfl

@[simp] theorem Ledger.zero_dam_hours : (0 : Ledger).dam_hours = 0 := rfl

@[simp] theorem Ledger.zero_rt_intervals : (0 : Ledger).rt_intervals = 0 := rfl

@[simp] theorem Ledger.zero_total_discharge_mwh : (0 : Ledger).total_discharge_mwh = 0 := rfl

@[simp] theorem Ledger.zero_total_charge_mwh : (0 : Ledger).total_charge_mwh = 0 := rfl

instance : AddCommMonoid Ledger where
  add_assoc a b c := by ext <;> simp <;> ring
  zero_add a := by ext <;> simp
  add_zero a := by ext <;> simp
  add_comm a b := by ext <;> simp <;> ring
  nsmul := nsmulRec

/-- The state of the revenues dictionary: a ledger per resource name.
Names outside the registry keep the zero ledger and are never touched. -/
abbrev State := String → Ledger

/-- Pointwise in-place update of one entry of the revenues dictionary. -/
def updateAt (s : State) (n : String) (f : Ledger → Ledger) : State :=
  fun m => if m = n then f (s m) else s m

/-- A state that is zero everywhere except one name. -/
def singleState (n : String) (d : Ledger) : State :=
  fun m => if m = n then d else 0

/-- The resource type tag that selects battery storage rows. -/
def pwrstrTag : String := "PWRSTR"

/-- The PWRSTR filter applied to a file or chunk (the bess_data frame). -/
def bessOf (rows : List DamRow) : List DamRow :=
  rows.filter (fun r => r.resourceType == pwrstrTag)

/-- The five ancillary service products process_year accumulates. -/
inductive ASProduct
  | regUp
  | regDown
  | rrs
  | ecrs
  | nonSpin
  deriving DecidableEq

/-- The MCPC column of a product as carried by one raw row. -/
def rowMCPC : ASProduct → DamRow → Option ℚ
  | .regUp, r => r.regUpMCPC
  | .regDown, r => r.regDownMCPC
  | .rrs, r => r.rrsMCPC
  | .ecrs, r => r.ecrsMCPC
  | .nonSpin, r => r.nonSpinMCPC

/-- The MCPC process_year uses for a whole hour group: to_numeric of the
first row of the group (iloc 0 over the full file frame, before the
PWRSTR filter). -/
def mcpcOf (p : ASProduct) (grp : List DamRow) : Option ℚ :=
  grp.head?.bind (rowMCPC p)

/-- The award MW extracted from one row for one product: to_numeric with
fillna(0) on the award column; the three RRS sub-type columns are summed. -/
def awardOf : ASProduct → DamRow → ℚ
  | .regUp, r => r.regUpAwarded.getD 0
  | .regDown, r => r.regDownAwarded.getD 0
  | .rrs, r => r.rrspfrAwarded.getD 0 + r.rrsffrAwarded.getD 0 + r.rrsufrAwarded.getD 0
  | .ecrs, r => r.ecrssdAwarded.getD 0
  | .nonSpin, r => r.nonSpinAwarded.getD 0

/-- The accumulator field of a product in the revenues dictionary. -/
def accOf : ASProduct → Ledger → ℚ
  | .regUp, L => L.reg_up
  | .regDown, L => L.reg_down
  | .rrs, L => L.rrs
  | .ecrs, L => L.ecrs
  | .nonSpin, L => L.non_spin

/-- Adding a revenue amount to the accumulator of one product. -/
def addAcc : ASProduct → ℚ → Ledger → Ledger
  | .regUp, d, L => { L with reg_up := L.reg_up + d }
  | .regDown, d, L => { L with reg_down := L.reg_down + d }
  | .rrs, d, L => { L with rrs := L.rrs + d }
  | .ecrs, d, L => { L with ecrs := L.ecrs + d }
  | .nonSpin, d, L => { L with non_spin := L.non_spin + d }

/-- The inner loop body of one AS block of process_year: one storage row of
the hour, award times the hour MCPC added to the accumulator of the rows
resource, gated on membership in the revenues dictionary (the registry). -/
def asRowStep (reg : String → Bool) (p : ASProduct) (v : ℚ) (t : State) (r : DamRow) : State :=
  if reg r.resourceName then updateAt t r.resourceName (addAcc p (awardOf p r * v)) else t

/-- One AS block of process_year for one hour group: read the MCPC from the
first row of the group; if it parses and is strictly positive, add award
times MCPC for every storage row of the group, else contribute nothing.
An absent MCPC column behaves as a value that fails to parse. -/
def asStep (reg : String → Bool) (p : ASProduct) (grp : List DamRow) (s : State) : State :=
  match mcpcOf p grp with
  | none => s
  | some v => if 0 < v then (bessOf grp).foldl (asRowStep reg p v) s else s

/-- The five AS blocks of process_year applied to one hour group, in source
order: RegUp, RegDown, RRS, ECRS, NonSpin. -/
def processHourGroup (reg : String → Bool) (grp : List DamRow) (s : State) : State :=
  asStep reg .nonSpin grp
    (asStep reg .ecrs grp
      (asStep reg .rrs grp
        (asStep reg .regDown grp
          (asStep reg .regUp grp s))))

/-- DAM energy revenue of one row: Awarded Quantity times Energy Settlement
Point Price, both to_numeric with fillna(0). -/
def energyRevenue (r : DamRow) : ℚ :=
  r.awardedQuantity.getD 0 * r.energySettlementPointPrice.getD 0

/-- The body of the DAM energy loop of process_year: energy revenue and an
hour count added for a storage row whose name is in the registry. -/
def energyRowStep (reg : String → Bool) (t : State) (r : DamRow) : State :=
  if reg r.resourceName then
    updateAt t r.resourceName (fun L =>
      { L with dam_energy := L.dam_energy + energyRevenue r, dam_hours := L.dam_hours + 1 })
  else t

/-- The groupby key of the DAM hour loop: (Delivery Date, Hour Ending). -/
def damKey (r : DamRow) : String × Nat :=
  (r.deliveryDate, r.hourEnding)

/-- The distinct hour keys of a file. The pandas groupby visits keys in
sorted order; the enumeration order is immaterial here because each hour
group only adds to ledger entries. -/
def keysOf (rows : List DamRow) : List (String × Nat) :=
  (rows.map damKey).dedup

/-- process_year on one DAM file: every hour group goes through the five AS
blocks, then the DAM energy loop runs over the storage rows of the file. -/
def processDamFile (reg : String → Bool) (rows : List DamRow) (s : State) : State :=
  let s1 := (keysOf rows).foldl
    (fun t k => processHourGroup reg (rows.filter (fun r => decide (damKey r = k))) t) s
  (bessOf rows).foldl (energyRowStep reg) s1

/-- The DAM file loop of process_year over a list of files. -/
def processDamFiles (reg : String → Bool) (files : List (List DamRow)) (s : State) : State :=
  files.foldl (fun t rows => processDamFile reg rows t) s

/-- The per-settlement-point price list the RT price loader collects. -/
def pricesFor (rows : List PriceRow) (sp : String) : List ℚ :=
  (rows.filter (fun r => r.settlementPointName == sp)).map (·.settlementPointPrice)

/-- The RT price lookup process_year builds: one value per settlement point,
the numpy mean of every quote collected for that point over the whole
period; none when the point never occurs. The interval of a quote is
ignored. -/
def buildRtPrices (rows : List PriceRow) : String → Option ℚ :=
  fun sp =>
    let ps := pricesFor rows sp
    if ps = [] then none else some (ps.sum / ps.length)

/-- The body of the SCED dispatch loop of process_year for one storage row:
Base Point with fillna(0), the RT price of the resources settlement point
with the constant 50 dollars per MWh fallback, the 5 minute energy and its
revenue added to rt_energy_arbitrage, plus the interval counter and the
gross charge and discharge tallies. The membership gate on the revenues
dictionary and on the registry coincide because the dictionary is keyed by
the registry names. -/
def processScedRow (reg : String → Bool) (spOf : String → String)
    (rt : String → Option ℚ) (t : State) (r : ScedRow) : State :=
  if reg r.resourceName then
    let base := r.basePoint.getD 0
    let price := (rt (spOf r.resourceName)).getD 50
    let emwh := base * (5 / 60)
    updateAt t r.resourceName (fun L =>
      { L with
        rt_energy_arbitrage := L.rt_energy_arbitrage + emwh * price,
        rt_intervals := L.rt_intervals + 1,
        total_discharge_mwh := L.total_discharge_mwh + (if 0 < base then emwh else 0),
        total_charge_mwh := L.total_charge_mwh + (if 0 < base then 0 else |emwh|) })
  else t

/-- One SCED chunk: the PWRSTR filter, then the dispatch loop. -/
def processScedChunk (reg : String → Bool) (spOf : String → String)
    (rt : String → Option ℚ) (rows : List ScedRow) (s : State) : State :=
  (rows.filter (fun r => r.resourceType == pwrstrTag)).foldl (processScedRow reg spOf rt) s

/-- The SCED chunk loop of process_year. -/
def processScedChunks (reg : String → Bool) (spOf : String → String)
    (rt : String → Option ℚ) (chunks : List (List ScedRow)) (s : State) : State :=
  chunks.foldl (fun t rows => processScedChunk reg spOf rt rows t) s

/-- total_as at finalization: the five AS accumulators summed. -/
def totalAS (L : Ledger) : ℚ :=
  L.reg_up + L.reg_down + L.rrs + L.ecrs + L.non_spin

/-- total at finalization: DAM energy plus RT arbitrage plus total_as. -/
def totalRev (L : Ledger) : ℚ :=
  L.dam_energy + L.rt_energy_arbitrage + totalAS L

/-- Energy_Pct as process_year computes it, with the guard that yields 0
when total is not strictly positive. -/
def energyPct (L : Ledger) : ℚ :=
  if 0 < totalRev L then (L.dam_energy + L.rt_energy_arbitrage) / totalRev L * 100 else 0

/-- AS_Pct as process_year computes it, with the same guard. -/
def asPct (L : Ledger) : ℚ :=
  if 0 < totalRev L then totalAS L / totalRev L * 100 else 0

/-- One finalized output row of process_year, with its column names. -/
structure ResultRow where
  BESS_Asset_Name : String
  Year : ℕ
  RT_Revenue : ℚ
  DA_Revenue : ℚ
  Spin_Revenue : ℚ
  NonSpin_Revenue : ℚ
  RegUp_Revenue : ℚ
  RegDown_Revenue : ℚ
  ECRS_Revenue : ℚ
  Total_Revenue : ℚ
  Total_AS_Revenue : ℚ
  Energy_Pct : ℚ
  AS_Pct : ℚ
  Discharge_MWh : ℚ
  Charge_MWh : ℚ
  deriving DecidableEq

/-- The dictionary appended to results for one resource. -/
def mkResultRow (name : String) (year : ℕ) (L : Ledger) : ResultRow :=
  { BESS_Asset_Name := name
    Year := year
    RT_Revenue := L.rt_energy_arbitrage
    DA_Revenue := L.dam_energy
    Spin_Revenue := L.rrs
    NonSpin_Revenue := L.non_spin
    RegUp_Revenue := L.reg_up
    RegDown_Revenue := L.reg_down
    ECRS_Revenue := L.ecrs
    Total_Revenue := totalRev L
    Total_AS_Revenue := totalAS L
    Energy_Pct := energyPct L
    AS_Pct := asPct L
    Discharge_MWh := L.total_discharge_mwh
    Charge_MWh := L.total_charge_mwh }

/-- Finalization of one ledger entry: a row only when total is strictly
positive, as the guard in process_year emits it. -/
def finalizeEntry (name : String) (year : ℕ) (L : Ledger) : Option ResultRow :=
  if 0 < totalRev L then some (mkResultRow name year L) else none

/-- Finalization over the registry names: the results list of process_year. -/
def finalize (names : List String) (year : ℕ) (s : State) : List ResultRow :=
  names.filterMap (fun n => finalizeEntry n year (s n))

namespace finalAnalysis

/-- The RegUp contribution of one storage row in analyze_year_sample of
final_bess_revenue_analysis.py: added whenever the award parses positive
and the MCPC merely parses, with no positivity gate on the MCPC. -/
def regUpContrib (mwRaw mcpc : Option ℚ) : ℚ :=
  match mwRaw, mcpc with
  | some mw, some p => if 0 < mw then mw * p else 0
  | _, _ => 0

end finalAnalysis

/-! Concrete fixtures used by counterexamples and witnesses. -/

/-- A resource name in the registry of the fixtures. -/
def nameR1 : String := "R1"

/-- A resource name outside the registry of the fixtures. -/
def nameR2 : String := "R2"

/-- A settlement point name. -/
def spSP1 : String := "SP1"

/-- A delivery date literal. -/
def dateD : String := "01/01/2024"

/-- A registry holding exactly the resource nameR1. -/
def regR1 : String → Bool := fun n => n == nameR1

/-- The settlement point mapping of the fixtures: every resource sits at
spSP1. -/
def spMapR1 : String → String := fun _ => spSP1

/-- The revenues dictionary as initialized: a zero ledger everywhere. -/
def emptyState : State := fun _ => 0

/-- A DAM row with every numeric field missing. -/
def baseDamRow : DamRow :=
  { resourceName := nameR1
    resourceType := pwrstrTag
    deliveryDate := dateD
    hourEnding := 1
    awardedQuantity := none
    energySettlementPointPrice := none
    regUpMCPC := none
    regDownMCPC := none
    rrsMCPC := none
    ecrsMCPC := none
    nonSpinMCPC := none
    regUpAwarded := none
    regDownAwarded := none
    rrspfrAwarded := none
    rrsffrAwarded := none
    rrsufrAwarded := none
    ecrssdAwarded := none
    nonSpinAwarded := none }

/-- The scenario ledger of the specification: DAM energy 200, RT 30,
RegUp 40, total 270. -/
def ledgerC4 : Ledger :=
  { dam_energy := 200
    rt_energy_arbitrage := 30
    reg_up := 40
    reg_down := 0
    rrs := 0
    ecrs := 0
    non_spin := 0
    dam_hours := 1
    rt_intervals := 1
    total_discharge_mwh := 1
    total_charge_mwh := 0 }

/-- A ledger whose only activity is a net charging cost: total is -5. -/
def ledgerChargeOnly : Ledger :=
  { (0 : Ledger) with rt_energy_arbitrage := -5 }

/-- The scenario ledger has total 270, strictly positive. -/
theorem totalRev_ledgerC4_pos : 0 < totalRev ledgerC4 := by
  norm_num [totalRev, totalAS, ledgerC4]

/-- Finalizing the scenario ledger emits its row. -/
theorem finalizeEntry_ledgerC4 :
    finalizeEntry nameR1 2024 ledgerC4 = some (mkResultRow nameR1 2024 ledgerC4) := by
  rw [finalizeEntry, if_pos totalRev_ledgerC4_pos]

/-- The pure-charging ledger has total -5. -/
theorem totalRev_ledgerChargeOnly : totalRev ledgerChargeOnly = -5 := by
  norm_num [totalRev, totalAS, ledgerChargeOnly]

/-! Claim C4. -/

/-- C4: in every finalized output row the two percentage columns sum to
exactly 100 (the row is only emitted when total is strictly positive),
and the percentage computation yields 0 for both shares whenever total
is zero or negative. -/
theorem claimC4_pct :
    (∀ (n : String) (year : ℕ) (L : Ledger) (row : ResultRow),
        finalizeEntry n year L = some row → row.Energy_Pct + row.AS_Pct = 100) ∧
    (∀ L : Ledger, totalRev L ≤ 0 → energyPct L = 0 ∧ asPct L = 0) := by
  constructor
  · intro n year L row h
    rw [finalizeEntry] at h
    split at h
    case isTrue ht =>
      cases h
      have hT : totalRev L ≠ 0 := ne_of_gt ht
      show energyPct L + asPct L = 100
      rw [energyPct, asPct, if_pos ht, if_pos ht]
      field_simp
      simp only [totalRev, totalAS]
      ring
    case isFalse ht => cases h
  · intro L hL
    rw [energyPct, asPct, if_neg (not_lt.mpr hL), if_neg (not_lt.mpr hL)]
    exact ⟨rfl, rfl⟩

/-- Witness for C4: the scenario ledger yields a row whose percentages sum
to 100, and a pure-charging ledger gets both percentages 0. -/
theorem claimC4_witness :
    (finalizeEntry nameR1 2024 ledgerC4 = some (mkResultRow nameR1 2024 ledgerC4) ∧
      (mkResultRow nameR1 2024 ledgerC4).Energy_Pct +
        (mkResultRow nameR1 2024 ledgerC4).AS_Pct = 100) ∧
    (totalRev ledgerChargeOnly ≤ 0 ∧
      energyPct ledgerChargeOnly = 0 ∧ asPct ledgerChargeOnly = 0) :=
  ⟨⟨finalizeEntry_ledgerC4,
    claimC4_pct.1 nameR1 2024 ledgerC4 (mkResultRow nameR1 2024 ledgerC4) finalizeEntry_ledgerC4⟩,
   ⟨by rw [totalRev_ledgerChargeOnly]; norm_num,
    claimC4_pct.2 ledgerChargeOnly (by rw [totalRev_ledgerChargeOnly]; norm_num)⟩⟩

/-! Claim C5. -/

/-- C5 counterexample: a ledger whose only activity is a net RT charging
cost has total -5, strictly negative, yet finalization drops it — the
output over a one-name registry is empty, though the claim says an entry
with a negative total is still reported. -/
theorem claimC5_counterexample :
    totalRev ledgerChargeOnly < 0 ∧
    finalizeEntry nameR1 2024 ledgerChargeOnly = none ∧
    finalize [nameR1] 2024 (singleState nameR1 ledgerChargeOnly) = [] := by
  have hneg : totalRev ledgerChargeOnly < 0 := by rw [totalRev_ledgerChargeOnly]; norm_num
  have hnone : finalizeEntry nameR1 2024 ledgerChargeOnly = none := by
    rw [finalizeEntry, if_neg (not_lt.mpr (le_of_lt hneg))]
  exact ⟨hneg, hnone, by simp [finalize, singleState, hnone]⟩

/-- C5 (amended): an accumulated entry is dropped from finalized output
exactly when its total is zero or negative; in particular an all-zero
entry never appears, and a negative-total entry is dropped as well. -/
theorem claimC5_amended :
    ∀ (n : String) (year : ℕ) (L : Ledger),
      finalizeEntry n year L = none ↔ totalRev L ≤ 0 := by
  intro n year L
  rw [finalizeEntry]
  by_cases ht : 0 < totalRev L
  · rw [if_pos ht]
    exact iff_of_false (by simp) (not_le.mpr ht)
  · rw [if_neg ht]
    exact iff_of_true rfl (not_lt.mp ht)

/-! Claim C7. -/

/-- C7: a raw award or dispatch record whose resource name is not in the
registry leaves the ledger state unchanged at each accumulation step of
process_year (the AS inner loop, the DAM energy loop and the SCED
dispatch loop); the membership test replaces any error path, so no
exception is modelled. -/
theorem claimC7_unknown_resource (reg : String → Bool) (p : ASProduct) (v : ℚ)
    (spOf : String → String) (rt : String → Option ℚ) (s : State)
    (rD : DamRow) (rS : ScedRow)
    (hD : reg rD.resourceName = false) (hS : reg rS.resourceName = false) :
    asRowStep reg p v s rD = s ∧ energyRowStep reg s rD = s ∧
      processScedRow reg spOf rt s rS = s := by
  refine ⟨?_, ?_, ?_⟩
  · rw [asRowStep, if_neg (by simp [hD])]
  · rw [energyRowStep, if_neg (by simp [hD])]
  · rw [processScedRow, if_neg (by simp [hS])]

/-- A DAM row of an unregistered resource. -/
def damRowUnknown : DamRow :=
  { baseDamRow with
    resourceName := nameR2
    regUpAwarded := some 5
    awardedQuantity := some 10
    energySettlementPointPrice := some 20 }

/-- A SCED row of an unregistered resource. -/
def scedRowUnknown : ScedRow :=
  { resourceName := nameR2, resourceType := pwrstrTag, interval := 0, basePoint := some 7 }

/-- Witness for C7: the records of resource nameR2, absent from the one-name
registry, change nothing. -/
theorem claimC7_witness :
    (regR1 damRowUnknown.resourceName = false ∧ regR1 scedRowUnknown.resourceName = false) ∧
    (asRowStep regR1 ASProduct.regUp 8 emptyState damRowUnknown = emptyState ∧
      energyRowStep regR1 emptyState damRowUnknown = emptyState ∧
      processScedRow regR1 spMapR1 (buildRtPrices []) emptyState scedRowUnknown = emptyState) :=
  ⟨⟨by decide, by decide⟩,
   claimC7_unknown_resource regR1 ASProduct.regUp 8 spMapR1 (buildRtPrices [])
     emptyState damRowUnknown scedRowUnknown (by decide) (by decide)⟩

/-! Claim C10. -/

/-- C10: every finalized output row is internally consistent: the total AS
column is the sum of the five AS component columns, and the total revenue
column is DA plus RT plus total AS (exactly, over rationals). -/
theorem claimC10_row_consistency (n : String) (year : ℕ) (L : Ledger) (row : ResultRow)
    (h : finalizeEntry n year L = some row) :
    row.Total_AS_Revenue =
        row.RegUp_Revenue + row.RegDown_Revenue + row.Spin_Revenue +
          row.ECRS_Revenue + row.NonSpin_Revenue ∧
      row.Total_Revenue = row.DA_Revenue + row.RT_Revenue + row.Total_AS_Revenue := by
  rw [finalizeEntry] at h
  split at h
  case isTrue ht =>
    cases h
    constructor
    · show totalAS L = L.reg_up + L.reg_down + L.rrs + L.ecrs + L.non_spin
      rw [totalAS]
    · show totalRev L = L.dam_energy + L.rt_energy_arbitrage + totalAS L
      rw [totalRev]
  case isFalse ht => cases h

/-- Witness for C10: the scenario row is internally consistent. -/
theorem claimC10_witness :
    finalizeEntry nameR1 2024 ledgerC4 = some (mkResultRow nameR1 2024 ledgerC4) ∧
    ((mkResultRow nameR1 2024 ledgerC4).Total_AS_Revenue =
        (mkResultRow nameR1 2024 ledgerC4).RegUp_Revenue +
          (mkResultRow nameR1 2024 ledgerC4).RegDown_Revenue +
          (mkResultRow nameR1 2024 ledgerC4).Spin_Revenue +
          (mkResultRow nameR1 2024 ledgerC4).ECRS_Revenue +
          (mkResultRow nameR1 2024 ledgerC4).NonSpin_Revenue ∧
      (mkResultRow nameR1 2024 ledgerC4).Total_Revenue =
        (mkResultRow nameR1 2024 ledgerC4).DA_Revenue +
          (mkResultRow nameR1 2024 ledgerC4).RT_Revenue +
          (mkResultRow nameR1 2024 ledgerC4).Total_AS_Revenue) :=
  ⟨finalizeEntry_ledgerC4,
   claimC10_row_consistency nameR1 2024 ledgerC4 (mkResultRow nameR1 2024 ledgerC4)
     finalizeEntry_ledgerC4⟩

/-! Claim C2: the RT price index used by the dispatch loop. -/

/-- Two quotes at the same settlement point in different intervals. -/
def priceRowsC2 : List PriceRow := [⟨spSP1, 0, 10⟩, ⟨spSP1, 1, 30⟩]

/-- A dispatch record of the registered resource in the first interval. -/
def scedRowC2 : ScedRow :=
  { resourceName := nameR1, resourceType := pwrstrTag, interval := 0, basePoint := some 6 }

/-- C2 code evaluation: with quotes 10 then 30 at the settlement point,
the price index holds their period mean 20, and the dispatch record of
interval 0 adds 6 times 5/60 times 20 = 10 to rt_energy_arbitrage,
not 6 times 5/60 times 10 = 5, the amount the per-interval price of
that specific interval gives. -/
theorem claimC2_code_eval :
    buildRtPrices priceRowsC2 spSP1 = some 20 ∧
    ((processScedChunk regR1 spMapR1 (buildRtPrices priceRowsC2) [scedRowC2] emptyState)
        nameR1).rt_energy_arbitrage = 10 ∧
    (10 : ℚ) ≠ 6 * (5 / 60) * 10 := by
  refine ⟨?_, ?_, by norm_num⟩
  · norm_num [buildRtPrices, pricesFor, priceRowsC2]
    exact fun h => absurd h (by simp)
  · norm_num [processScedChunk, processScedRow, updateAt, buildRtPrices, pricesFor,
      priceRowsC2, scedRowC2, emptyState, regR1, spMapR1]
    rw [if_neg (show ¬([10, 30] : List ℚ) = [] by simp)]
    norm_num

/-! Claim C8: the silent price fallback. -/

/-- A single real quote of 50 at the settlement point. -/
def priceRows50 : List PriceRow := [⟨spSP1, 0, 50⟩]

/-- C8 code evaluation: when the settlement point is absent from the price
table the lookup yields none and the dispatch loop silently substitutes
the constant 50; the resulting state is exactly the state produced by a
genuine quote of 50 — no fallback counter exists anywhere in the ledger,
so fallback-priced intervals are indistinguishable from real quotes. -/
theorem claimC8_code_eval :
    buildRtPrices [] spSP1 = none ∧
    processScedChunk regR1 spMapR1 (buildRtPrices []) [scedRowC2] emptyState =
      processScedChunk regR1 spMapR1 (buildRtPrices priceRows50) [scedRowC2] emptyState := by
  constructor
  · rfl
  · have h50 : buildRtPrices priceRows50 (spMapR1 nameR1) = some 50 := by
      norm_num [buildRtPrices, pricesFor, priceRows50, spMapR1]
    have hmiss : buildRtPrices [] (spMapR1 nameR1) = none := rfl
    simp [processScedChunk, processScedRow, scedRowC2, h50, hmiss]

/-! Per-product accumulation lemmas for the DAM AS blocks. -/

/-- Reading back the accumulator a product just added to. -/
theorem accOf_addAcc_self (p : ASProduct) (d : ℚ) (L : Ledger) :
    accOf p (addAcc p d L) = accOf p L + d := by
  cases p <;> rfl

/-- Adding to the accumulator of one product leaves the others alone. -/
theorem accOf_addAcc_other (p q : ASProduct) (h : q ≠ p) (d : ℚ) (L : Ledger) :
    accOf p (addAcc q d L) = accOf p L := by
  cases p <;> cases q <;> first | rfl | exact absurd rfl h

/-- The inner AS loop adds, to the accumulator of a registered name, the
awards of the rows carrying that name times the hour price. -/
theorem foldl_asRowStep_acc_self (reg : String → Bool) (p : ASProduct) (v : ℚ) (n : String)
    (hn : reg n = true) :
    ∀ (l : List DamRow) (s : State),
      accOf p ((l.foldl (asRowStep reg p v) s) n) =
        accOf p (s n) + ((l.filter (fun r => r.resourceName == n)).map (awardOf p)).sum * v := by
  intro l
  induction l with
  | nil => intro s; simp
  | cons r t ih =>
    intro s
    rw [List.foldl_cons, ih]
    by_cases hr : r.resourceName = n
    · have hreg : reg r.resourceName = true := by rw [hr]; exact hn
      have hstep : (asRowStep reg p v s r) n = addAcc p (awardOf p r * v) (s n) := by
        rw [asRowStep, if_pos hreg, updateAt, if_pos hr.symm]
      rw [hstep, accOf_addAcc_self,
        List.filter_cons_of_pos (by simp [hr]), List.map_cons, List.sum_cons]
      ring
    · have hstep : (asRowStep reg p v s r) n = s n := by
        rw [asRowStep]
        split
        · rw [updateAt, if_neg (fun heq => hr heq.symm)]
        · rfl
      rw [hstep, List.filter_cons_of_neg (by simp [hr])]

/-- The inner AS loop of one product never touches another accumulator. -/
theorem foldl_asRowStep_acc_other (reg : String → Bool) (q p : ASProduct) (hqp : q ≠ p)
    (v : ℚ) (n : String) :
    ∀ (l : List DamRow) (s : State),
      accOf p ((l.foldl (asRowStep reg q v) s) n) = accOf p (s n) := by
  intro l
  induction l with
  | nil => intro s; rfl
  | cons r t ih =>
    intro s
    rw [List.foldl_cons, ih, asRowStep]
    split
    · rw [updateAt]
      by_cases hn' : n = r.resourceName
      · rw [if_pos hn', accOf_addAcc_other p q hqp]
      · rw [if_neg hn']
    · rfl

/-- One AS block: under a positive parsed hour price, the accumulator of
the product gains the award sum of the registered name times the price. -/
theorem asStep_acc_self (reg : String → Bool) (p : ASProduct) (grp : List DamRow)
    (s : State) (n : String) (v : ℚ) (hn : reg n = true)
    (hm : mcpcOf p grp = some v) (hv : 0 < v) :
    accOf p ((asStep reg p grp s) n) =
      accOf p (s n) +
        (((bessOf grp).filter (fun r => r.resourceName == n)).map (awardOf p)).sum * v := by
  simp only [asStep, hm, if_pos hv]
  exact foldl_asRowStep_acc_self reg p v n hn (bessOf grp) s

/-- One AS block of another product preserves the accumulator of p. -/
theorem asStep_acc_other (reg : String → Bool) (q p : ASProduct) (hqp : q ≠ p)
    (grp : List DamRow) (s : State) (n : String) :
    accOf p ((asStep reg q grp s) n) = accOf p (s n) := by
  cases hmc : mcpcOf q grp with
  | none => simp only [asStep, hmc]
  | some v =>
    simp only [asStep, hmc]
    split
    · exact foldl_asRowStep_acc_other reg q p hqp v n (bessOf grp) s
    · rfl

/-! Claim C1. -/

/-- A storage row of the registered resource in an hour whose RegUp MCPC
is the uniform, but negative, value -5, with a RegUp award of 3. -/
def damRowNegMCPC : DamRow :=
  { baseDamRow with
    regUpMCPC := some (-5)
    regUpAwarded := some 3 }

/-- C1 counterexample: in an hour group all of whose rows carry the same
RegUp MCPC -5, the resource with award 3 receives contribution 0, not
award times that single value (-15): the positivity gate in process_year
refutes the unconditional product formula of the claim. -/
theorem claimC1_counterexample :
    (∀ r ∈ [damRowNegMCPC], rowMCPC ASProduct.regUp r = some (-5)) ∧
    ((processHourGroup regR1 [damRowNegMCPC] emptyState) nameR1).reg_up = 0 ∧
    (3 : ℚ) * (-5) ≠ 0 := by
  refine ⟨?_, ?_, by norm_num⟩
  · intro r hr
    rw [List.mem_singleton] at hr
    subst hr
    rfl
  · norm_num [processHourGroup, asStep, mcpcOf, rowMCPC, damRowNegMCPC, baseDamRow, emptyState]

/-- C1 (amended): when every row of the hour group carries the same MCPC
for a product and that single value is strictly positive, the contribution
of the hour to a registered resource is exactly the sum of its extracted
award MW times that one deduplicated value — one market-wide price per
(product, hour), never an average across resource rows; a non-positive or
unparseable shared MCPC contributes nothing (claimC9 side). -/
theorem claimC1_amended (reg : String → Bool) (p : ASProduct) (grp : List DamRow)
    (s : State) (n : String) (v : ℚ)
    (hne : grp ≠ []) (huni : ∀ r ∈ grp, rowMCPC p r = some v) (hv : 0 < v)
    (hn : reg n = true) :
    accOf p ((processHourGroup reg grp s) n) =
      accOf p (s n) +
        (((bessOf grp).filter (fun r => r.resourceName == n)).map (awardOf p)).sum * v := by
  have hm : mcpcOf p grp = some v := by
    cases grp with
    | nil => exact absurd rfl hne
    | cons r t =>
      have hr := huni r (List.mem_cons_self r t)
      simpa [mcpcOf] using hr
  cases p with
  | regUp =>
    rw [processHourGroup,
      asStep_acc_other reg .nonSpin .regUp (by decide) grp _ n,
      asStep_acc_other reg .ecrs .regUp (by decide) grp _ n,
      asStep_acc_other reg .rrs .regUp (by decide) grp _ n,
      asStep_acc_other reg .regDown .regUp (by decide) grp _ n,
      asStep_acc_self reg .regUp grp _ n v hn hm hv]
  | regDown =>
    rw [processHourGroup,
      asStep_acc_other reg .nonSpin .regDown (by decide) grp _ n,
      asStep_acc_other reg .ecrs .regDown (by decide) grp _ n,
      asStep_acc_other reg .rrs .regDown (by decide) grp _ n,
      asStep_acc_self reg .regDown grp _ n v hn hm hv,
      asStep_acc_other reg .regUp .regDown (by decide) grp _ n]
  | rrs =>
    rw [processHourGroup,
      asStep_acc_other reg .nonSpin .rrs (by decide) grp _ n,
      asStep_acc_other reg .ecrs .rrs (by decide) grp _ n,
      asStep_acc_self reg .rrs grp _ n v hn hm hv,
      asStep_acc_other reg .regDown .rrs (by decide) grp _ n,
      asStep_acc_other reg .regUp .rrs (by decide) grp _ n]
  | ecrs =>
    rw [processHourGroup,
      asStep_acc_other reg .nonSpin .ecrs (by decide) grp _ n,
      asStep_acc_self reg .ecrs grp _ n v hn hm hv,
      asStep_acc_other reg .rrs .ecrs (by decide) grp _ n,
      asStep_acc_other reg .regDown .ecrs (by decide) grp _ n,
      asStep_acc_other reg .regUp .ecrs (by decide) grp _ n]
  | nonSpin =>
    rw [processHourGroup,
      asStep_acc_self reg .nonSpin grp _ n v hn hm hv,
      asStep_acc_other reg .ecrs .nonSpin (by decide) grp _ n,
      asStep_acc_other reg .rrs .nonSpin (by decide) grp _ n,
      asStep_acc_other reg .regDown .nonSpin (by decide) grp _ n,
      asStep_acc_other reg .regUp .nonSpin (by decide) grp _ n]

/-- A storage row of the registered resource with a uniform positive RegUp
MCPC of 8 and an award of 5. -/
def damRowC1 : DamRow :=
  { baseDamRow with
    regUpMCPC := some 8
    regUpAwarded := some 5 }

/-- Witness for the amended C1 at a concrete one-row hour group. -/
theorem claimC1_witness :
    (([damRowC1] : List DamRow) ≠ [] ∧
      (∀ r ∈ [damRowC1], rowMCPC ASProduct.regUp r = some 8) ∧
      (0 : ℚ) < 8 ∧ regR1 nameR1 = true) ∧
    accOf ASProduct.regUp ((processHourGroup regR1 [damRowC1] emptyState) nameR1) =
      accOf ASProduct.regUp (emptyState nameR1) +
        (((bessOf [damRowC1]).filter (fun r => r.resourceName == nameR1)).map
            (awardOf ASProduct.regUp)).sum * 8 :=
  ⟨⟨List.cons_ne_nil _ _,
    fun r hr => by rw [List.mem_singleton] at hr; subst hr; rfl,
    by norm_num, rfl⟩,
   claimC1_amended regR1 ASProduct.regUp [damRowC1] emptyState nameR1 8
     (List.cons_ne_nil _ _)
     (fun r hr => by rw [List.mem_singleton] at hr; subst hr; rfl)
     (by norm_num) rfl⟩

/-! Claim C6. -/

/-- A storage row carrying a negative RegUp award of -3 in an hour with a
positive RegUp MCPC of 5. -/
def damRowNegAward : DamRow :=
  { baseDamRow with
    regUpMCPC := some 5
    regUpAwarded := some (-3) }

/-- Processing the hour with the negative award drives reg_up to -15. -/
theorem procNegAward :
    ((processHourGroup regR1 [damRowNegAward] emptyState) nameR1).reg_up = -15 := by
  norm_num [processHourGroup, asStep, asRowStep, mcpcOf, rowMCPC, awardOf, addAcc, bessOf,
    updateAt, damRowNegAward, baseDamRow, emptyState, regR1, pwrstrTag]

/-- C6 counterexample: a raw RegUp award field of -3 is not coerced to
zero; with MCPC 5 the hour adds -15, decreasing the reg_up accumulator
below its prior value 0, contradicting the claimed non-negativity. -/
theorem claimC6_counterexample :
    ((processHourGroup regR1 [damRowNegAward] emptyState) nameR1).reg_up = -15 ∧
    ((-15 : ℚ) < 0) ∧ (emptyState nameR1).reg_up = 0 :=
  ⟨procNegAward, by norm_num, rfl⟩

/-- The award columns of a product all absent or unparseable. -/
def awardFieldsNone : ASProduct → DamRow → Prop
  | .regUp, r => r.regUpAwarded = none
  | .regDown, r => r.regDownAwarded = none
  | .rrs, r => r.rrspfrAwarded = none ∧ r.rrsffrAwarded = none ∧ r.rrsufrAwarded = none
  | .ecrs, r => r.ecrssdAwarded = none
  | .nonSpin, r => r.nonSpinAwarded = none

/-- C6 (amended): an unparseable (or absent) AS award field is coerced to
zero and contributes nothing, but a negative numeric award value is used
as is, so an AS accumulator can decrease when a record carries a negative
award in an hour with a positive MCPC. -/
theorem claimC6_amended :
    (∀ (p : ASProduct) (r : DamRow), awardFieldsNone p r → awardOf p r = 0) ∧
    (∃ (grp : List DamRow) (s : State),
      accOf ASProduct.regUp ((processHourGroup regR1 grp s) nameR1) <
        accOf ASProduct.regUp (s nameR1)) := by
  constructor
  · intro p r h
    cases p <;> simp_all [awardOf, awardFieldsNone]
  · refine ⟨[damRowNegAward], emptyState, ?_⟩
    show ((processHourGroup regR1 [damRowNegAward] emptyState) nameR1).reg_up <
      (emptyState nameR1).reg_up
    rw [procNegAward]
    norm_num [emptyState]

/-- Witness for the amended C6: a row with no award fields extracts 0. -/
theorem claimC6_witness :
    awardFieldsNone ASProduct.regUp baseDamRow ∧ awardOf ASProduct.regUp baseDamRow = 0 :=
  ⟨rfl, claimC6_amended.1 ASProduct.regUp baseDamRow rfl⟩

/-! Claim C9. -/

/-- C9 counterexample: in the final_bess_revenue_analysis variant a parsed
MCPC of -5 with an award of 2 adds -10 — a contribution is added although
the clearing price is not strictly positive, and it reduces the
accumulator. -/
theorem claimC9_counterexample :
    finalAnalysis.regUpContrib (some 2) (some (-5)) = -10 ∧
    ((-10 : ℚ) < 0) ∧ ¬ (0 : ℚ) < -5 := by
  refine ⟨?_, by norm_num, by norm_num⟩
  norm_num [finalAnalysis.regUpContrib]

/-- C9 (amended): in the corrected pipeline an AS block contributes nothing
whenever the hour MCPC is missing, unparseable, zero or negative — the
whole step is the identity on the state; but in the
final_bess_revenue_analysis variant the contribution is added whenever the
MCPC merely parses and the award is positive, so a negative MCPC does
reduce the accumulator there. -/
theorem claimC9_amended :
    (∀ (reg : String → Bool) (p : ASProduct) (grp : List DamRow) (s : State),
        mcpcOf p grp = none ∨ (∃ v, mcpcOf p grp = some v ∧ v ≤ 0) →
          asStep reg p grp s = s) ∧
    (∀ mw mcpc : ℚ, 0 < mw →
        finalAnalysis.regUpContrib (some mw) (some mcpc) = mw * mcpc) := by
  constructor
  · rintro reg p grp s (hm | ⟨v, hm, hv⟩)
    · simp only [asStep, hm]
    · simp only [asStep, hm, if_neg (not_lt.mpr hv)]
  · intro mw mcpc hmw
    simp only [finalAnalysis.regUpContrib, if_pos hmw]

/-- Witness for the amended C9: an empty group has no parseable MCPC and
its AS step is the identity; a positive award with MCPC 3 contributes the
product. -/
theorem claimC9_witness :
    (mcpcOf ASProduct.regUp ([] : List DamRow) = none ∧
      asStep regR1 ASProduct.regUp [] emptyState = emptyState) ∧
    ((0 : ℚ) < 2 ∧ finalAnalysis.regUpContrib (some 2) (some 3) = 2 * 3) :=
  ⟨⟨rfl, claimC9_amended.1 regR1 ASProduct.regUp [] emptyState (Or.inl rfl)⟩,
   ⟨by norm_num, claimC9_amended.2 2 3 (by norm_num)⟩⟩

/-! Claim C3: accumulation as pure addition of per-chunk deltas. -/

/-- Pointwise update of one name is addition of a one-name state. -/
theorem updateAt_eq_add (s : State) (n : String) (f : Ledger → Ledger) (D : Ledger)
    (hf : ∀ L, f L = L + D) : updateAt s n f = s + singleState n D := by
  funext m
  simp only [updateAt, Pi.add_apply, singleState]
  by_cases hm : m = n
  · rw [if_pos hm, if_pos hm, hf]
  · rw [if_neg hm, if_neg hm, add_zero]

/-- addAcc is addition of a one-field ledger. -/
theorem addAcc_eq_add (p : ASProduct) (d : ℚ) (L : Ledger) :
    addAcc p d L = L + addAcc p d 0 := by
  cases p <;> ext <;> simp [addAcc]

/-- A fold whose step is pure addition of a per-element delta is addition
of the summed deltas. -/
theorem foldl_step_sum {α : Type} (step : State → α → State) (g : α → State)
    (hstep : ∀ t a, step t a = t + g a) :
    ∀ (l : List α) (s : State), l.foldl step s = s + (l.map g).sum := by
  intro l
  induction l with
  | nil => intro s; simp
  | cons a t ih =>
    intro s
    rw [List.foldl_cons, hstep, ih, List.map_cons, List.sum_cons, add_assoc]

/-- The delta one AS inner-loop row adds. -/
def asRowDelta (reg : String → Bool) (p : ASProduct) (v : ℚ) (r : DamRow) : State :=
  if reg r.resourceName then singleState r.resourceName (addAcc p (awardOf p r * v) 0) else 0

theorem asRowStep_eq_add (reg : String → Bool) (p : ASProduct) (v : ℚ) :
    ∀ (t : State) (r : DamRow), asRowStep reg p v t r = t + asRowDelta reg p v r := by
  intro t r
  rw [asRowStep, asRowDelta]
  by_cases h : reg r.resourceName
  · rw [if_pos h, if_pos h]
    exact updateAt_eq_add t r.resourceName _ _ (addAcc_eq_add p _)
  · rw [if_neg h, if_neg h, add_zero]

/-- The delta one AS block adds for one hour group. -/
def asStepDelta (reg : String → Bool) (p : ASProduct) (grp : List DamRow) : State :=
  match mcpcOf p grp with
  | none => 0
  | some v => if 0 < v then ((bessOf grp).map (asRowDelta reg p v)).sum else 0

theorem asStep_eq_add (reg : String → Bool) (p : ASProduct) (grp : List DamRow) (s : State) :
    asStep reg p grp s = s + asStepDelta reg p grp := by
  cases hmc : mcpcOf p grp with
  | none => simp only [asStep, asStepDelta, hmc]; rw [add_zero]
  | some v =>
    simp only [asStep, asStepDelta, hmc]
    by_cases hv : 0 < v
    · rw [if_pos hv, if_pos hv]
      exact foldl_step_sum _ _ (asRowStep_eq_add reg p v) (bessOf grp) s
    · rw [if_neg hv, if_neg hv, add_zero]

/-- The delta of a whole hour group: the five AS blocks. -/
def groupDelta (reg : String → Bool) (grp : List DamRow) : State :=
  asStepDelta reg .regUp grp + asStepDelta reg .regDown grp + asStepDelta reg .rrs grp +
    asStepDelta reg .ecrs grp + asStepDelta reg .nonSpin grp

theorem processHourGroup_eq_add (reg : String → Bool) (grp : List DamRow) (s : State) :
    processHourGroup reg grp s = s + groupDelta reg grp := by
  rw [processHourGroup, asStep_eq_add, asStep_eq_add, asStep_eq_add, asStep_eq_add,
    asStep_eq_add, groupDelta]
  simp only [add_assoc]

/-- The delta one DAM energy-loop row adds. -/
def energyDelta (reg : String → Bool) (r : DamRow) : State :=
  if reg r.resourceName then
    singleState r.resourceName
      { (0 : Ledger) with dam_energy := energyRevenue r, dam_hours := 1 }
  else 0

theorem energyRowStep_eq_add (reg : String → Bool) :
    ∀ (t : State) (r : DamRow), energyRowStep reg t r = t + energyDelta reg r := by
  intro t r
  rw [energyRowStep, energyDelta]
  by_cases h : reg r.resourceName
  · rw [if_pos h, if_pos h]
    refine updateAt_eq_add _ _ _ _ (fun L => ?_)
    ext <;> simp
  · rw [if_neg h, if_neg h, add_zero]

/-- The delta of one whole DAM file. -/
def fileDelta (reg : String → Bool) (rows : List DamRow) : State :=
  ((keysOf rows).map
      (fun k => groupDelta reg (rows.filter (fun r => decide (damKey r = k))))).sum +
    ((bessOf rows).map (energyDelta reg)).sum

theorem processDamFile_eq_add (reg : String → Bool) (rows : List DamRow) (s : State) :
    processDamFile reg rows s = s + fileDelta reg rows := by
  simp only [processDamFile]
  rw [foldl_step_sum
      (fun t k => processHourGroup reg (rows.filter (fun r => decide (damKey r = k))) t)
      (fun k => groupDelta reg (rows.filter (fun r => decide (damKey r = k))))
      (fun t k => processHourGroup_eq_add reg _ t) (keysOf rows) s,
    foldl_step_sum (energyRowStep reg) (energyDelta reg) (energyRowStep_eq_add reg)
      (bessOf rows) _,
    fileDelta, add_assoc]

/-- The delta of a list of DAM files. -/
def filesDelta (reg : String → Bool) (files : List (List DamRow)) : State :=
  (files.map (fileDelta reg)).sum

theorem processDamFiles_eq_add (reg : String → Bool) (files : List (List DamRow)) (s : State) :
    processDamFiles reg files s = s + filesDelta reg files := by
  rw [processDamFiles, filesDelta]
  exact foldl_step_sum _ _ (fun t rows => processDamFile_eq_add reg rows t) files s

/-- The delta one SCED dispatch row adds. -/
def scedDelta (reg : String → Bool) (spOf : String → String) (rt : String → Option ℚ)
    (r : ScedRow) : State :=
  if reg r.resourceName then
    singleState r.resourceName
      { (0 : Ledger) with
        rt_energy_arbitrage :=
          r.basePoint.getD 0 * (5 / 60) * (rt (spOf r.resourceName)).getD 50
        rt_intervals := 1
        total_discharge_mwh :=
          if 0 < r.basePoint.getD 0 then r.basePoint.getD 0 * (5 / 60) else 0
        total_charge_mwh :=
          if 0 < r.basePoint.getD 0 then 0 else |r.basePoint.getD 0 * (5 / 60)| }
  else 0

theorem processScedRow_eq_add (reg : String → Bool) (spOf : String → String)
    (rt : String → Option ℚ) :
    ∀ (t : State) (r : ScedRow), processScedRow reg spOf rt t r = t + scedDelta reg spOf rt r := by
  intro t r
  rw [processScedRow, scedDelta]
  by_cases h : reg r.resourceName
  · rw [if_pos h, if_pos h]
    refine updateAt_eq_add _ _ _ _ (fun L => ?_)
    ext <;> simp
  · rw [if_neg h, if_neg h, add_zero]

/-- The delta of one SCED chunk. -/
def scedChunkDelta (reg : String → Bool) (spOf : String → String) (rt : String → Option ℚ)
    (rows : List ScedRow) : State :=
  ((rows.filter (fun r => r.resourceType == pwrstrTag)).map (scedDelta reg spOf rt)).sum

theorem processScedChunk_eq_add (reg : String → Bool) (spOf : String → String)
    (rt : String → Option ℚ) (rows : List ScedRow) (s : State) :
    processScedChunk reg spOf rt rows s = s + scedChunkDelta reg spOf rt rows := by
  rw [processScedChunk, scedChunkDelta]
  exact foldl_step_sum _ _ (processScedRow_eq_add reg spOf rt) _ s

/-- The delta of a list of SCED chunks. -/
def scedChunksDelta (reg : String → Bool) (spOf : String → String) (rt : String → Option ℚ)
    (chunks : List (List ScedRow)) : State :=
  (chunks.map (scedChunkDelta reg spOf rt)).sum

theorem processScedChunks_eq_add (reg : String → Bool) (spOf : String → String)
    (rt : String → Option ℚ) (chunks : List (List ScedRow)) (s : State) :
    processScedChunks reg spOf rt chunks s = s + scedChunksDelta reg spOf rt chunks := by
  rw [processScedChunks, scedChunksDelta]
  exact foldl_step_sum _ _ (fun t rows => processScedChunk_eq_add reg spOf rt rows t) chunks s

/-! General list-sum lemmas. -/

/-- Splitting a summed map along a Boolean filter. -/
theorem sum_map_split {α M : Type} [AddCommMonoid M] (p : α → Bool) (h : α → M) :
    ∀ l : List α,
      ((l.filter p).map h).sum + ((l.filter (fun a => !(p a))).map h).sum = (l.map h).sum := by
  intro l
  induction l with
  | nil => simp
  | cons a t ih =>
    by_cases hp : p a = true
    · rw [List.filter_cons_of_pos hp, List.filter_cons_of_neg (by simp [hp]),
        List.map_cons, List.sum_cons, List.map_cons, List.sum_cons, add_assoc, ih]
    · have hpf : p a = false := by revert hp; cases p a <;> simp
      rw [List.filter_cons_of_neg (by simp [hpf]), List.filter_cons_of_pos (by simp [hpf]),
        List.map_cons, List.sum_cons, List.map_cons, List.sum_cons, add_left_comm, ih]

/-- Fiberwise summation: summing each key fiber over a duplicate-free key
list covering the elements equals summing the whole list. -/
theorem sum_fiber {α κ M : Type} [DecidableEq κ] [AddCommMonoid M] (key : α → κ) (h : α → M) :
    ∀ K : List κ, K.Nodup → ∀ l : List α, (∀ a ∈ l, key a ∈ K) →
      (K.map (fun k => ((l.filter (fun a => decide (key a = k))).map h).sum)).sum =
        (l.map h).sum := by
  intro K
  induction K with
  | nil =>
    intro _ l hl
    cases l with
    | nil => simp
    | cons a t => exact absurd (hl a (List.mem_cons_self a t)) (List.not_mem_nil _)
  | cons k K ih =>
    intro hnd l hl
    have hK : K.Nodup := (List.nodup_cons.mp hnd).2
    have hkK : k ∉ K := (List.nodup_cons.mp hnd).1
    rw [List.map_cons, List.sum_cons]
    have hfib : ∀ k2 ∈ K,
        l.filter (fun a => decide (key a = k2)) =
          (l.filter (fun a => !(decide (key a = k)))).filter
            (fun a => decide (key a = k2)) := by
      intro k2 hk2
      rw [List.filter_filter]
      apply List.filter_congr
      intro a _
      by_cases hak : key a = k
      · have hek : ¬ key a = k2 := fun he => hkK ((hak.symm.trans he) ▸ hk2)
        simp only [hak, hek]
        simp
        exact fun he => hkK (by rw [he]; exact hk2)
      · simp [hak]
    have hmaps :
        K.map (fun k2 => ((l.filter (fun a => decide (key a = k2))).map h).sum) =
          K.map (fun k2 =>
            (((l.filter (fun a => !(decide (key a = k)))).filter
                (fun a => decide (key a = k2))).map h).sum) := by
      apply List.map_congr_left
      intro k2 hk2
      rw [hfib k2 hk2]
    rw [hmaps, ih hK (l.filter (fun a => !(decide (key a = k)))) ?_]
    · exact sum_map_split (fun a => decide (key a = k)) h l
    · intro a ha
      have hal : a ∈ l := List.mem_of_mem_filter ha
      have hak : ¬ key a = k := by simpa using List.of_mem_filter ha
      rcases List.mem_cons.mp (hl a hal) with he | hm
      · exact absurd he hak
      · exact hm

/-- Summing five mapped families at once. -/
theorem sum_map_five {α M : Type} [AddCommMonoid M] (f1 f2 f3 f4 f5 : α → M) :
    ∀ l : List α,
      (l.map f1).sum + (l.map f2).sum + (l.map f3).sum + (l.map f4).sum + (l.map f5).sum =
        (l.map (fun x => f1 x + f2 x + f3 x + f4 x + f5 x)).sum := by
  intro l
  induction l with
  | nil => simp
  | cons a t ih =>
    simp only [List.map_cons, List.sum_cons]
    rw [← ih]
    abel

/-- Summing two mapped families at once. -/
theorem sum_map_two {α M : Type} [AddCommMonoid M] (f g : α → M) :
    ∀ l : List α, (l.map f).sum + (l.map g).sum = (l.map (fun x => f x + g x)).sum := by
  intro l
  induction l with
  | nil => simp
  | cons a t ih =>
    simp only [List.map_cons, List.sum_cons]
    rw [← ih]
    abel

/-! The uniform-MCPC hypothesis and per-row characterisation of deltas. -/

/-- The delta a single row would add if its own MCPC column were used with
the positivity gate of process_year. -/
def rowSelfDelta (reg : String → Bool) (p : ASProduct) (r : DamRow) : State :=
  match rowMCPC p r with
  | none => 0
  | some v => if 0 < v then asRowDelta reg p v r else 0

/-- The documented market invariant: rows of the same (Delivery Date, Hour
Ending) carry the same MCPC for every product. -/
def MCPCUniform (rows : List DamRow) : Prop :=
  ∀ (p : ASProduct) (r1 : DamRow), r1 ∈ rows → ∀ r2 ∈ rows,
    damKey r1 = damKey r2 → rowMCPC p r1 = rowMCPC p r2

/-- Under a uniform MCPC in the group, the AS block delta is the sum of the
per-row self deltas. -/
theorem asStepDelta_uniform (reg : String → Bool) (p : ASProduct) (grp : List DamRow)
    (huni : ∀ r1 ∈ grp, ∀ r2 ∈ grp, rowMCPC p r1 = rowMCPC p r2) :
    asStepDelta reg p grp = ((bessOf grp).map (rowSelfDelta reg p)).sum := by
  cases grp with
  | nil => simp [asStepDelta, mcpcOf, bessOf]
  | cons r0 t =>
    have hm : mcpcOf p (r0 :: t) = rowMCPC p r0 := by simp [mcpcOf]
    have hall : ∀ r ∈ bessOf (r0 :: t), rowMCPC p r = rowMCPC p r0 := by
      intro r hr
      exact huni r (List.mem_of_mem_filter hr) r0 (List.mem_cons_self r0 t)
    cases hv0 : rowMCPC p r0 with
    | none =>
      simp only [asStepDelta, hm.trans hv0]
      symm
      apply List.sum_eq_zero
      intro x hx
      obtain ⟨r, hr, rfl⟩ := List.mem_map.mp hx
      simp only [rowSelfDelta, (hall r hr).trans hv0]
    | some v =>
      by_cases hv : 0 < v
      · simp only [asStepDelta, hm.trans hv0, if_pos hv]
        congr 1
        apply List.map_congr_left
        intro r hr
        simp only [rowSelfDelta, (hall r hr).trans hv0, if_pos hv]
      · simp only [asStepDelta, hm.trans hv0, if_neg hv]
        symm
        apply List.sum_eq_zero
        intro x hx
        obtain ⟨r, hr, rfl⟩ := List.mem_map.mp hx
        simp only [rowSelfDelta, (hall r hr).trans hv0, if_neg hv]

/-- The five per-row self deltas of one row. -/
def rowASDelta (reg : String → Bool) (r : DamRow) : State :=
  rowSelfDelta reg .regUp r + rowSelfDelta reg .regDown r + rowSelfDelta reg .rrs r +
    rowSelfDelta reg .ecrs r + rowSelfDelta reg .nonSpin r

/-- Under uniform MCPCs the whole group delta is a per-row sum. -/
theorem groupDelta_uniform (reg : String → Bool) (grp : List DamRow)
    (huni : ∀ (p : ASProduct) (r1 : DamRow), r1 ∈ grp → ∀ r2 ∈ grp,
      rowMCPC p r1 = rowMCPC p r2) :
    groupDelta reg grp = ((bessOf grp).map (rowASDelta reg)).sum := by
  rw [groupDelta,
    asStepDelta_uniform reg .regUp grp (fun r1 h1 r2 h2 => huni _ r1 h1 r2 h2),
    asStepDelta_uniform reg .regDown grp (fun r1 h1 r2 h2 => huni _ r1 h1 r2 h2),
    asStepDelta_uniform reg .rrs grp (fun r1 h1 r2 h2 => huni _ r1 h1 r2 h2),
    asStepDelta_uniform reg .ecrs grp (fun r1 h1 r2 h2 => huni _ r1 h1 r2 h2),
    asStepDelta_uniform reg .nonSpin grp (fun r1 h1 r2 h2 => huni _ r1 h1 r2 h2),
    sum_map_five]
  rfl

/-- The PWRSTR filter commutes with any other row filter. -/
theorem bessOf_filter_comm (rows : List DamRow) (q : DamRow → Bool) :
    bessOf (rows.filter q) = (bessOf rows).filter q := by
  rw [bessOf, bessOf, List.filter_filter, List.filter_filter]
  apply List.filter_congr
  intro a _
  exact Bool.and_comm _ _

/-- Every storage row of a file has its hour key among the file keys. -/
theorem keys_cover (rows : List DamRow) : ∀ a ∈ bessOf rows, damKey a ∈ keysOf rows := by
  intro a ha
  rw [keysOf, List.mem_dedup]
  exact List.mem_map_of_mem damKey (List.mem_of_mem_filter ha)

/-- Under the uniform-MCPC invariant the file delta is a pure per-row sum,
independent of the grouping. -/
theorem fileDelta_uniform (reg : String → Bool) (rows : List DamRow)
    (hU : MCPCUniform rows) :
    fileDelta reg rows =
      ((bessOf rows).map (fun r => rowASDelta reg r + energyDelta reg r)).sum := by
  rw [fileDelta]
  have hgrp : (keysOf rows).map
        (fun k => groupDelta reg (rows.filter (fun r => decide (damKey r = k)))) =
      (keysOf rows).map
        (fun k =>
          (((bessOf rows).filter (fun r => decide (damKey r = k))).map (rowASDelta reg)).sum) := by
    apply List.map_congr_left
    intro k _
    rw [groupDelta_uniform reg (rows.filter (fun r => decide (damKey r = k))) ?_,
      bessOf_filter_comm]
    intro p r1 h1 r2 h2
    have e1 : damKey r1 = k := by simpa using List.of_mem_filter h1
    have e2 : damKey r2 = k := by simpa using List.of_mem_filter h2
    exact hU p r1 (List.mem_of_mem_filter h1) r2 (List.mem_of_mem_filter h2)
      (e1.trans e2.symm)
  rw [hgrp,
    sum_fiber damKey (rowASDelta reg) (keysOf rows) (List.nodup_dedup _)
      (bessOf rows) (keys_cover rows),
    sum_map_two]

/-- Under the invariant, the delta of a list of DAM files depends only on
the flattened rows. -/
theorem filesDelta_uniform (reg : String → Bool) :
    ∀ files : List (List DamRow), MCPCUniform files.flatten →
      filesDelta reg files =
        ((bessOf files.flatten).map (fun r => rowASDelta reg r + energyDelta reg r)).sum := by
  intro files
  induction files with
  | nil => intro _; rfl
  | cons c fs ih =>
    intro hU
    have hsub : ∀ r ∈ c, r ∈ (c :: fs).flatten := by
      intro r hr
      rw [List.flatten_cons]
      exact List.mem_append_left _ hr
    have hsub2 : ∀ r ∈ fs.flatten, r ∈ (c :: fs).flatten := by
      intro r hr
      rw [List.flatten_cons]
      exact List.mem_append_right _ hr
    have hUc : MCPCUniform c := fun p r1 h1 r2 h2 hk =>
      hU p r1 (hsub r1 h1) r2 (hsub r2 h2) hk
    have hUfs : MCPCUniform fs.flatten := fun p r1 h1 r2 h2 hk =>
      hU p r1 (hsub2 r1 h1) r2 (hsub2 r2 h2) hk
    have hstep : filesDelta reg (c :: fs) = fileDelta reg c + filesDelta reg fs := by
      simp [filesDelta]
    rw [hstep, fileDelta_uniform reg c hUc, ih hUfs]
    simp only [List.flatten_cons, bessOf, List.filter_append, List.map_append, List.sum_append]

/-- The delta of a list of SCED chunks depends only on the flattened rows. -/
theorem scedChunksDelta_flatten (reg : String → Bool) (spOf : String → String)
    (rt : String → Option ℚ) :
    ∀ chunks : List (List ScedRow),
      scedChunksDelta reg spOf rt chunks =
        ((chunks.flatten.filter (fun r => r.resourceType == pwrstrTag)).map
            (scedDelta reg spOf rt)).sum := by
  intro chunks
  induction chunks with
  | nil => rfl
  | cons c cs ih =>
    have hstep : scedChunksDelta reg spOf rt (c :: cs) =
        scedChunkDelta reg spOf rt c + scedChunksDelta reg spOf rt cs := by
      simp [scedChunksDelta]
    rw [hstep, ih, scedChunkDelta]
    simp only [List.flatten_cons, List.filter_append, List.map_append, List.sum_append]

/-- Two chunkings of the same DAM record multiset give the same delta,
under the uniform-MCPC invariant. -/
theorem filesDelta_perm (reg : String → Bool) (P Q : List (List DamRow))
    (hperm : P.flatten.Perm Q.flatten) (hU : MCPCUniform P.flatten) :
    filesDelta reg P = filesDelta reg Q := by
  have hUQ : MCPCUniform Q.flatten := fun p r1 h1 r2 h2 hk =>
    hU p r1 (hperm.mem_iff.mpr h1) r2 (hperm.mem_iff.mpr h2) hk
  rw [filesDelta_uniform reg P hU, filesDelta_uniform reg Q hUQ]
  exact List.Perm.sum_eq ((hperm.filter _).map _)

/-- Two chunkings of the same SCED record multiset give the same delta. -/
theorem scedChunksDelta_perm (reg : String → Bool) (spOf : String → String)
    (rt : String → Option ℚ) (S T : List (List ScedRow))
    (hperm : S.flatten.Perm T.flatten) :
    scedChunksDelta reg spOf rt S = scedChunksDelta reg spOf rt T := by
  rw [scedChunksDelta_flatten, scedChunksDelta_flatten]
  exact List.Perm.sum_eq ((hperm.filter _).map _)

/-! Claim C3 itself. -/

/-- A storage row of the registered resource, RegUp MCPC 10, award 1. -/
def damRowM10 : DamRow :=
  { baseDamRow with
    regUpMCPC := some 10
    regUpAwarded := some 1 }

/-- The same row except its RegUp MCPC column reads 20. -/
def damRowM20 : DamRow :=
  { damRowM10 with regUpMCPC := some 20 }

/-- An AS block with no parseable group MCPC is the identity. -/
theorem asStep_of_none (reg : String → Bool) (p : ASProduct) (grp : List DamRow) (s : State)
    (hm : mcpcOf p grp = none) : asStep reg p grp s = s := by
  simp only [asStep, hm]

/-- Evaluation: the two rows of the hour processed as one file give 20. -/
theorem damEvalOneChunk :
    ((processDamFiles regR1 [[damRowM10, damRowM20]] emptyState) nameR1).reg_up = 20 := by
  have hone : processDamFiles regR1 [[damRowM10, damRowM20]] emptyState =
      processDamFile regR1 [damRowM10, damRowM20] emptyState := rfl
  rw [hone]
  have hkeys : keysOf [damRowM10, damRowM20] = [(dateD, 1)] := by decide
  have hfil : [damRowM10, damRowM20].filter
      (fun r => decide (damKey r = (dateD, 1))) = [damRowM10, damRowM20] := by decide
  have hbess : bessOf [damRowM10, damRowM20] = [damRowM10, damRowM20] := by decide
  have hg : processHourGroup regR1 [damRowM10, damRowM20] emptyState =
      (bessOf [damRowM10, damRowM20]).foldl (asRowStep regR1 .regUp 10) emptyState := by
    rw [processHourGroup,
      asStep_of_none regR1 .nonSpin [damRowM10, damRowM20] _ rfl,
      asStep_of_none regR1 .ecrs [damRowM10, damRowM20] _ rfl,
      asStep_of_none regR1 .rrs [damRowM10, damRowM20] _ rfl,
      asStep_of_none regR1 .regDown [damRowM10, damRowM20] _ rfl]
    have hm : mcpcOf ASProduct.regUp [damRowM10, damRowM20] = some 10 := rfl
    simp only [asStep, hm]
    rw [if_pos (by norm_num : (0 : ℚ) < 10)]
  simp only [processDamFile, hkeys, List.foldl_cons, List.foldl_nil, hfil, hbess, hg]
  norm_num [asRowStep, energyRowStep, updateAt, addAcc, awardOf, energyRevenue,
    damRowM10, damRowM20, baseDamRow, emptyState, regR1]

/-- Evaluation: the same two rows split into two files give 30. -/
theorem damEvalTwoChunks :
    ((processDamFiles regR1 [[damRowM10], [damRowM20]] emptyState) nameR1).reg_up = 30 := by
  have htwo : processDamFiles regR1 [[damRowM10], [damRowM20]] emptyState =
      processDamFile regR1 [damRowM20] (processDamFile regR1 [damRowM10] emptyState) := rfl
  rw [htwo]
  have hkeys1 : keysOf [damRowM10] = [(dateD, 1)] := by decide
  have hkeys2 : keysOf [damRowM20] = [(dateD, 1)] := by decide
  have hfil1 : [damRowM10].filter (fun r => decide (damKey r = (dateD, 1))) = [damRowM10] := by
    decide
  have hfil2 : [damRowM20].filter (fun r => decide (damKey r = (dateD, 1))) = [damRowM20] := by
    decide
  have hbess1 : bessOf [damRowM10] = [damRowM10] := by decide
  have hbess2 : bessOf [damRowM20] = [damRowM20] := by decide
  have hg1 : ∀ s : State, processHourGroup regR1 [damRowM10] s =
      (bessOf [damRowM10]).foldl (asRowStep regR1 .regUp 10) s := by
    intro s
    rw [processHourGroup,
      asStep_of_none regR1 .nonSpin [damRowM10] _ rfl,
      asStep_of_none regR1 .ecrs [damRowM10] _ rfl,
      asStep_of_none regR1 .rrs [damRowM10] _ rfl,
      asStep_of_none regR1 .regDown [damRowM10] _ rfl]
    have hm : mcpcOf ASProduct.regUp [damRowM10] = some 10 := rfl
    simp only [asStep, hm]
    rw [if_pos (by norm_num : (0 : ℚ) < 10)]
  have hg2 : ∀ s : State, processHourGroup regR1 [damRowM20] s =
      (bessOf [damRowM20]).foldl (asRowStep regR1 .regUp 20) s := by
    intro s
    rw [processHourGroup,
      asStep_of_none regR1 .nonSpin [damRowM20] _ rfl,
      asStep_of_none regR1 .ecrs [damRowM20] _ rfl,
      asStep_of_none regR1 .rrs [damRowM20] _ rfl,
      asStep_of_none regR1 .regDown [damRowM20] _ rfl]
    have hm : mcpcOf ASProduct.regUp [damRowM20] = some 20 := rfl
    simp only [asStep, hm]
    rw [if_pos (by norm_num : (0 : ℚ) < 20)]
  simp only [processDamFile, hkeys1, hkeys2, List.foldl_cons, List.foldl_nil, hfil1, hfil2,
    hbess1, hbess2, hg1, hg2]
  norm_num [asRowStep, energyRowStep, updateAt, addAcc, awardOf, energyRevenue,
    damRowM10, damRowM20, baseDamRow, emptyState, regR1]

/-- C3 counterexample: the same two raw records of one hour, processed as
one chunk versus two chunks, give different reg_up ledgers (20 versus 30)
because the hour MCPC is read from the first row of each chunk group —
partition invariance fails when rows of an hour carry different MCPCs. -/
theorem claimC3_counterexample :
    ([[damRowM10, damRowM20]] : List (List DamRow)).flatten.Perm
        ([[damRowM10], [damRowM20]] : List (List DamRow)).flatten ∧
    ((processDamFiles regR1 [[damRowM10, damRowM20]] emptyState) nameR1).reg_up = 20 ∧
    ((processDamFiles regR1 [[damRowM10], [damRowM20]] emptyState) nameR1).reg_up = 30 ∧
    (20 : ℚ) ≠ 30 :=
  ⟨List.Perm.refl _, damEvalOneChunk, damEvalTwoChunks, by norm_num⟩

/-- C3 (amended): over exact arithmetic, processing any two chunkings of
the same multiset of DAM records followed by any two chunkings of the same
multiset of SCED records gives identical final ledger states, provided the
DAM records satisfy the documented market invariant that all rows of an
hour carry the same MCPC per product; the SCED side needs no proviso. -/
theorem claimC3_amended (reg : String → Bool) (spOf : String → String)
    (rt : String → Option ℚ) (P Q : List (List DamRow)) (S T : List (List ScedRow))
    (s0 : State) (hD : P.flatten.Perm Q.flatten) (hS : S.flatten.Perm T.flatten)
    (hU : MCPCUniform P.flatten) :
    processScedChunks reg spOf rt S (processDamFiles reg P s0) =
      processScedChunks reg spOf rt T (processDamFiles reg Q s0) := by
  rw [processScedChunks_eq_add, processScedChunks_eq_add, processDamFiles_eq_add,
    processDamFiles_eq_add, filesDelta_perm reg P Q hD hU,
    scedChunksDelta_perm reg spOf rt S T hS]

/-- Witness for the amended C3: one file versus the same file plus an empty
file, with no SCED chunks. -/
theorem claimC3_witness :
    (([[damRowM10]] : List (List DamRow)).flatten.Perm
        ([[damRowM10], []] : List (List DamRow)).flatten ∧
      (([] : List (List ScedRow)).flatten.Perm ([] : List (List ScedRow)).flatten) ∧
      MCPCUniform ([[damRowM10]] : List (List DamRow)).flatten) ∧
    processScedChunks regR1 spMapR1 (buildRtPrices []) []
        (processDamFiles regR1 [[damRowM10]] emptyState) =
      processScedChunks regR1 spMapR1 (buildRtPrices []) []
        (processDamFiles regR1 [[damRowM10], []] emptyState) := by
  have hp : (([[damRowM10]] : List (List DamRow)).flatten).Perm
      (([[damRowM10], []] : List (List DamRow)).flatten) := List.Perm.refl _
  have hu : MCPCUniform (([[damRowM10]] : List (List DamRow)).flatten) := by
    intro p r1 h1 r2 h2 _
    have e1 : r1 = damRowM10 := by simpa using h1
    have e2 : r2 = damRowM10 := by simpa using h2
    rw [e1, e2]
  exact ⟨⟨hp, List.Perm.refl _, hu⟩,
    claimC3_amended regR1 spMapR1 (buildRtPrices []) _ _ _ _ emptyState hp
      (List.Perm.refl _) hu⟩

end BessRevenue
